import Mathlib

/-!
Verification of the Mexicano tournament engine
(src/js/tournament.js and src/js/pairing.js).

Modelling conventions:
* JS numbers that the engine stores and compares as scores come from
  `parseInt` in the caller; scores and match ids are modelled as `Int`.
* JS `null`/unset scores are `Option.none`.
* `pointsPerGame` and `winPercentage` are produced by JS division; they are
  modelled as exact rationals.
* `localeCompare` on (unique) player names is modelled as the lexicographic
  comparison of strings.
* `createdAt` and `updatedAt` timestamps are wall-clock values and are not
  part of the model.
* The pairing loops read the input in slices of four; a trailing slice of
  fewer than four players (excluded by the documented multiple-of-four
  precondition on player counts) is not modelled.
-/

/-- A match record, as built in src/js/pairing.js and persisted:
id, the four participant names, and the two optional scores. -/
structure GameMatch where
  id : Int
  team1Player1 : String
  team1Player2 : String
  team2Player1 : String
  team2Player2 : String
  team1Score : Option Int
  team2Score : Option Int
deriving Repr, DecidableEq

/-- A round: its 1-based number and its list of matches. -/
structure Round where
  roundNumber : Nat
  matchList : List GameMatch
deriving Repr, DecidableEq

/-- The tournament aggregate (src/js/tournament.js createTournament shape,
without the wall-clock timestamps). -/
structure Tournament where
  name : String
  description : String
  tournamentDate : String
  players : List String
  rounds : List Round
deriving Repr, DecidableEq

/-- Per-player statistics object built by calculateStats; `rank` is the field
that rankPlayers later writes onto the same object (0 before assignment). -/
structure PlayerStats where
  name : String
  totalPoints : Int
  gamesPlayed : Nat
  wins : Nat
  losses : Nat
  pointsPerGame : ℚ
  winPercentage : ℚ
  rank : Nat
deriving Repr, DecidableEq

/-- src/js/tournament.js isValidScore: both scores non-negative and summing
to exactly 25. -/
def isValidScore (team1Score team2Score : Int) : Bool :=
  decide (0 ≤ team1Score) && decide (0 ≤ team2Score) &&
    decide (team1Score + team2Score = 25)

/-- src/js/tournament.js isMatchComplete: both scores set (non-null) and
valid. -/
def isMatchComplete (m : GameMatch) : Bool :=
  match m.team1Score, m.team2Score with
  | some s1, some s2 => isValidScore s1 s2
  | _, _ => false

/-- src/js/tournament.js isRoundComplete: every match complete. -/
def isRoundComplete (r : Round) : Bool :=
  r.matchList.all isMatchComplete

/-- src/js/tournament.js getCurrentRoundNumber: number of rounds
(0 when there are none). -/
def getCurrentRoundNumber (t : Tournament) : Nat :=
  t.rounds.length

/-- src/js/tournament.js getCurrentRound: the last round, if any. -/
def getCurrentRound (t : Tournament) : Option Round :=
  t.rounds.getLast?

/-- src/js/tournament.js canStartNextRound: no rounds yet, or the last round
is complete. -/
def canStartNextRound (t : Tournament) : Bool :=
  match getCurrentRound t with
  | none => true
  | some r => isRoundComplete r

/-- The stats object a player starts from in calculateStats. -/
def zeroStats (player : String) : PlayerStats :=
  { name := player, totalPoints := 0, gamesPlayed := 0, wins := 0,
    losses := 0, pointsPerGame := 0, winPercentage := 0, rank := 0 }

/-- calculateStats initialisation: one zeroed entry per declared player,
in declaration order. -/
def initStats (players : List String) : List PlayerStats :=
  players.map zeroStats

/-- One team-member update in calculateStats: add the team score, one game,
and a win or a loss. -/
def bumpStat (score : Int) (won : Bool) (s : PlayerStats) : PlayerStats :=
  { s with totalPoints := s.totalPoints + score,
           gamesPlayed := s.gamesPlayed + 1,
           wins := if won then s.wins + 1 else s.wins,
           losses := if won then s.losses else s.losses + 1 }

/-- The `if (stats[player])` guarded update of calculateStats: only entries
whose key matches the participant name are touched. -/
def slotBump (player : String) (score : Int) (won : Bool) (s : PlayerStats) :
    PlayerStats :=
  if s.name = player then bumpStat score won s else s

/-- Update the stats list for one participant name (a no-op when the name is
not a declared player, mirroring the `if (stats[player])` guard). -/
def addTeamScore (l : List PlayerStats) (player : String) (score : Int)
    (won : Bool) : List PlayerStats :=
  l.map (slotBump player score won)

/-- Processing of a single match inside calculateStats: incomplete matches
are skipped; for a complete match the two team-1 participants then the two
team-2 participants are updated, team 1 winning iff its score is strictly
greater. -/
def applyMatch (l : List PlayerStats) (m : GameMatch) : List PlayerStats :=
  match m.team1Score, m.team2Score with
  | some s1, some s2 =>
    if isValidScore s1 s2 then
      let team1Won : Bool := decide (s2 < s1)
      let l1 := addTeamScore (addTeamScore l m.team1Player1 s1 team1Won)
        m.team1Player2 s1 team1Won
      addTeamScore (addTeamScore l1 m.team2Player1 s2 (!team1Won))
        m.team2Player2 s2 (!team1Won)
    else l
  | _, _ => l

/-- The derived-fields pass of calculateStats: for players with at least one
game, pointsPerGame and winPercentage are computed; others keep their zeros.
The divisions are written with `mkRat`, which by `Rat.mkRat_eq_div` equals
the cast-and-divide form: `mkRat n d = (n : ℚ) / (d : ℚ)`. -/
def deriveStats (s : PlayerStats) : PlayerStats :=
  if 0 < s.gamesPlayed then
    { s with pointsPerGame := mkRat s.totalPoints s.gamesPlayed,
             winPercentage := mkRat ((s.wins : Int) * 100) s.gamesPlayed }
  else s

/-- src/js/tournament.js calculateStats: initialise every declared player to
zeroed stats, fold every match of every round, then derive
pointsPerGame/winPercentage. The JS object keyed by player name is modelled
as the list of its values in insertion order. -/
def calculateStats (t : Tournament) : List PlayerStats :=
  (t.rounds.foldl (fun acc r => r.matchList.foldl applyMatch acc)
    (initStats t.players)).map deriveStats

/-- Three-way comparison in a linear order (sign of the JS subtraction or
of localeCompare). -/
def cmpBy {α : Type} [LinearOrder α] (x y : α) : Ordering :=
  if x < y then .lt else if x = y then .eq else .gt

/-- Lexicographic three-way comparison of character lists (the order of
`List.lt` on `Char`). -/
def charListCmp : List Char → List Char → Ordering
  | [], [] => .eq
  | [], _ :: _ => .lt
  | _ :: _, [] => .gt
  | a :: as, b :: bs =>
    if a < b then .lt else if b < a then .gt else charListCmp as bs

/-- The sign of `a.localeCompare(b)`, modelled as case-sensitive lexicographic
comparison of the two strings. -/
def strCmp (a b : String) : Ordering :=
  charListCmp a.data b.data

/-- The sort comparator of rankPlayers: totalPoints descending, then wins
descending, then pointsPerGame descending, then name ascending. -/
def statsCmp (a b : PlayerStats) : Ordering :=
  match cmpBy b.totalPoints a.totalPoints with
  | .eq =>
    match cmpBy b.wins a.wins with
    | .eq =>
      match cmpBy b.pointsPerGame a.pointsPerGame with
      | .eq => strCmp a.name b.name
      | o => o
    | o => o
  | o => o

/-- Boolean `comes no later than` derived from the rankPlayers comparator. -/
def leStats (a b : PlayerStats) : Bool :=
  statsCmp a b != Ordering.gt

/-- The sort order used by rankPlayers, as a relation. -/
def leRel (a b : PlayerStats) : Prop :=
  leStats a b = true

instance : DecidableRel leRel := fun a b =>
  inferInstanceAs (Decidable (leStats a b = true))

/-- The rank-assignment loop of rankPlayers over the tail of the sorted list:
`prev` is the previously ranked entry, `i` the 0-based index of the head of
the remaining list. A player tied with its predecessor on totalPoints and
wins inherits the predecessor's rank; otherwise the rank is the 1-based
position. -/
def assignRanksAux (prev : PlayerStats) (i : Nat) :
    List PlayerStats → List PlayerStats
  | [] => []
  | p :: rest =>
    let r := if p.totalPoints = prev.totalPoints ∧ p.wins = prev.wins then
      prev.rank else i + 1
    let p1 := { p with rank := r }
    p1 :: assignRanksAux p1 (i + 1) rest

/-- Rank assignment of rankPlayers: the first sorted player gets rank 1. -/
def assignRanks : List PlayerStats → List PlayerStats
  | [] => []
  | p :: rest =>
    let p0 := { p with rank := 1 }
    p0 :: assignRanksAux p0 1 rest

/-- src/js/tournament.js rankPlayers: sort the stats by the comparator and
assign tie-aware ranks. Array.prototype.sort is modelled as insertion sort;
the comparator is a total order that distinguishes any two entries that
differ on totalPoints, wins, pointsPerGame or name, so for tournaments with
uniquely named players the sorted list is independent of the chosen sorting
algorithm. -/
def rankPlayers (t : Tournament) : List PlayerStats :=
  assignRanks ((calculateStats t).insertionSort leRel)

/-- src/js/pairing.js createInitialPairings, one group of four entry-order
players per iteration: team1 = first and fourth, team2 = second and third. -/
def createInitialPairingsAux (matchId : Int) : List String → List GameMatch
  | p0 :: p1 :: p2 :: p3 :: rest =>
    { id := matchId, team1Player1 := p0, team1Player2 := p3,
      team2Player1 := p1, team2Player2 := p2,
      team1Score := none, team2Score := none } ::
      createInitialPairingsAux (matchId + 1) rest
  | _ => []

/-- src/js/pairing.js createInitialPairings (match ids starting at 1). -/
def createInitialPairings (players : List String) : List GameMatch :=
  createInitialPairingsAux 1 players

/-- src/js/pairing.js createMexicanoPairings, one group of four consecutive
ranked players per iteration: team1 = best and weakest of the quartet,
team2 = the two middle players. -/
def createMexicanoPairingsAux (matchId : Int) :
    List PlayerStats → List GameMatch
  | g0 :: g1 :: g2 :: g3 :: rest =>
    { id := matchId, team1Player1 := g0.name, team1Player2 := g3.name,
      team2Player1 := g1.name, team2Player2 := g2.name,
      team1Score := none, team2Score := none } ::
      createMexicanoPairingsAux (matchId + 1) rest
  | _ => []

/-- src/js/pairing.js createMexicanoPairings (match ids starting at 1). -/
def createMexicanoPairings (rankedPlayers : List PlayerStats) :
    List GameMatch :=
  createMexicanoPairingsAux 1 rankedPlayers

/-- The maximum match id over all matches of all current rounds, 0 when there
are none (the reduce in src/js/pairing.js generateNextRound). -/
def maxMatchId (t : Tournament) : Int :=
  (t.rounds.flatMap (fun r => r.matchList)).foldl (fun mx m => max mx m.id) 0

/-- The id-reassignment loop of generateNextRound: the match at index `i`
gets id `maxId + i + 1`. -/
def reassignIdsFrom (maxId : Int) : Nat → List GameMatch → List GameMatch
  | _, [] => []
  | i, m :: ms =>
    { m with id := maxId + (i : Int) + 1 } :: reassignIdsFrom maxId (i + 1) ms

/-- src/js/pairing.js generateNextRound: refuse (null) unless a next round may
start; otherwise pair round 1 from entry order or a later round from the
current ranking, and renumber the match ids to continue from the maximum id
present in the tournament's current rounds. -/
def generateNextRound (t : Tournament) : Option Round :=
  if !canStartNextRound t then none
  else
    let nextRoundNumber := getCurrentRoundNumber t + 1
    let ms :=
      if nextRoundNumber = 1 then createInitialPairings t.players
      else createMexicanoPairings (rankPlayers t)
    some { roundNumber := nextRoundNumber,
           matchList := reassignIdsFrom (maxMatchId t) 0 ms }

/-- The failures updateMatchScore reports (the three `throw new Error` sites). -/
inductive UpdateError where
  | invalidScore
  | invalidRound
  | matchNotFound
deriving Repr, DecidableEq

instance : DecidableEq (Except UpdateError Tournament) := fun a b =>
  match a, b with
  | .ok x, .ok y =>
    if h : x = y then .isTrue (by rw [h])
    else .isFalse (by intro hc; injection hc; contradiction)
  | .ok _, .error _ => .isFalse (by intro hc; injection hc)
  | .error _, .ok _ => .isFalse (by intro hc; injection hc)
  | .error e, .error f =>
    if h : e = f then .isTrue (by rw [h])
    else .isFalse (by intro hc; injection hc; contradiction)

/-- Write the two scores onto the first match with the given id (the
`find`-then-assign of updateMatchScore). -/
def setScoreFirst (matchId s1 s2 : Int) : List GameMatch → List GameMatch
  | [] => []
  | m :: ms =>
    if m.id = matchId then
      { m with team1Score := some s1, team2Score := some s2 } :: ms
    else m :: setScoreFirst matchId s1 s2 ms

/-- A round with the scores of the first match with the given id replaced. -/
def editRound (r : Round) (matchId s1 s2 : Int) : Round :=
  { r with matchList := setScoreFirst matchId s1 s2 r.matchList }

/-- Placeholder used only under bounds checks already performed. -/
def defaultRound : Round :=
  { roundNumber := 0, matchList := [] }

/-- src/js/tournament.js updateMatchScore: validate the score, locate the
round (1-based) and the match by id, write the scores; when the edited round
is strictly before the current (last) round, drop every later round and, if
the edited round is now complete, regenerate and append the next round. -/
def updateMatchScore (t : Tournament) (roundNumber matchId s1 s2 : Int) :
    Except UpdateError Tournament :=
  if !isValidScore s1 s2 then .error .invalidScore
  else if roundNumber - 1 < 0 ∨ (t.rounds.length : Int) ≤ roundNumber - 1 then
    .error .invalidRound
  else
    let i := (roundNumber - 1).toNat
    let round := t.rounds.getD i defaultRound
    match round.matchList.find? (fun m => m.id = matchId) with
    | none => .error .matchNotFound
    | some _ =>
      let rounds1 := t.rounds.set i (editRound round matchId s1 s2)
      if roundNumber < (t.rounds.length : Int) then
        let rounds2 := rounds1.take roundNumber.toNat
        let t2 : Tournament := { t with rounds := rounds2 }
        if isRoundComplete (rounds2.getD i defaultRound) then
          match generateNextRound t2 with
          | some nr => .ok { t with rounds := rounds2 ++ [nr] }
          | none => .ok t2
        else .ok t2
      else .ok { t with rounds := rounds1 }

/-- src/js/tournament.js canEdit, with the JS Date arithmetic made explicit:
`tournamentDayStart` is the millisecond timestamp of midnight at the start of
the tournament date and `now` the current millisecond timestamp (both in the
host's local timezone, which the model keeps abstract); the deadline is two
calendar days after that midnight. -/
def canEdit (tournamentDayStart now : Int) : Bool :=
  decide (now < tournamentDayStart + 2 * 86400000)

/-! ### Concrete fixtures used by witnesses and counterexamples -/

/-- Helper to build a match record. -/
def mkM (i : Int) (a b c d : String) (s1 s2 : Option Int) : GameMatch :=
  { id := i, team1Player1 := a, team1Player2 := b, team2Player1 := c,
    team2Player2 := d, team1Score := s1, team2Score := s2 }

/-- An 8-player tournament with three rounds (ids 1..6), the third round
still unscored. -/
def exT : Tournament :=
  { name := "t", description := "", tournamentDate := "2024-01-01",
    players := ["A", "B", "C", "D", "E", "F", "G", "H"],
    rounds :=
      [ { roundNumber := 1, matchList :=
            [ mkM 1 "A" "D" "B" "C" (some 13) (some 12),
              mkM 2 "E" "H" "F" "G" (some 20) (some 5) ] },
        { roundNumber := 2, matchList :=
            [ mkM 3 "A" "E" "B" "F" (some 15) (some 10),
              mkM 4 "C" "G" "D" "H" (some 11) (some 14) ] },
        { roundNumber := 3, matchList :=
            [ mkM 5 "A" "B" "C" "D" none none,
              mkM 6 "E" "F" "G" "H" none none ] } ] }

/-! ### C6: score validation -/

/-- C6: `isValidScore` returns true exactly for score pairs (of integers,
the domain of the model) that are both non-negative and sum to exactly 25;
in particular 15-10 is accepted while 13-13 and (-1)-26 are rejected. -/
theorem isValidScore_spec :
    (∀ a b : Int, (isValidScore a b = true ↔ 0 ≤ a ∧ 0 ≤ b ∧ a + b = 25)) ∧
      isValidScore 15 10 = true ∧ isValidScore 13 13 = false ∧
      isValidScore (-1) 26 = false := by
  refine ⟨fun a b => ?_, by decide, by decide, by decide⟩
  simp [isValidScore, and_assoc]

/-! ### C7: round-generation precondition -/

/-- C7: `generateNextRound` refuses (returns none) exactly when a last round
exists and contains an incomplete match; otherwise it succeeds and the
produced round is numbered one past the number of existing rounds. -/
theorem generateNextRound_precondition_spec (t : Tournament) :
    (generateNextRound t = none ↔
      ∃ r, getCurrentRound t = some r ∧ isRoundComplete r = false) ∧
    (∀ nr, generateNextRound t = some nr →
      nr.roundNumber = t.rounds.length + 1) := by
  constructor
  · rcases h : getCurrentRound t with _ | r
    · simp [generateNextRound, canStartNextRound, h]
    · rcases hc : isRoundComplete r with _ | _ <;>
        simp [generateNextRound, canStartNextRound, h, hc, getCurrentRoundNumber]
  · intro nr hnr
    unfold generateNextRound at hnr
    split at hnr
    · exact absurd hnr (by simp)
    · simp only [Option.some.injEq] at hnr
      rw [← hnr]
      rfl

/-- Witness for C7 at the concrete fixture: the third round of `exT` is
incomplete, so generateNextRound refuses; after completing it, the generated
round is numbered 4. -/
theorem generateNextRound_precondition_witness :
    generateNextRound exT = none ∧
      (∃ r, getCurrentRound exT = some r ∧ isRoundComplete r = false) := by
  have h := (generateNextRound_precondition_spec exT).1
  refine ⟨h.mpr ?_, ?_⟩ <;>
    exact ⟨{ roundNumber := 3, matchList :=
      [ mkM 5 "A" "B" "C" "D" none none,
        mkM 6 "E" "F" "G" "H" none none ] }, by decide, by decide⟩

/-! ### C8: failure cases of updateMatchScore -/

/-- Helper: when the score is valid, the round number is in range, and the
match id is found, updateMatchScore succeeds. -/
theorem updateMatchScore_ok_of (t : Tournament) (rn mid s1 s2 : Int)
    (hv : isValidScore s1 s2 = true)
    (hr1 : 1 ≤ rn) (hr2 : rn ≤ (t.rounds.length : Int))
    (hf : (t.rounds.getD (rn - 1).toNat defaultRound).matchList.find?
      (fun m => m.id = mid) ≠ none) :
    ∃ t', updateMatchScore t rn mid s1 s2 = .ok t' := by
  unfold updateMatchScore
  have h1 : ¬(rn - 1 < 0 ∨ (t.rounds.length : Int) ≤ rn - 1) := by omega
  rcases hfind : (t.rounds.getD (rn - 1).toNat defaultRound).matchList.find?
      (fun m => m.id = mid) with _ | m
  · exact absurd hfind hf
  · simp only [hv, Bool.not_true, Bool.false_eq_true, if_false, if_neg h1, hfind]
    repeat' split
    all_goals exact ⟨_, rfl⟩


/-- C8: updateMatchScore reports exactly one failure for exactly the
following conditions, tried in this order: an invalid score pair, a round
number with no existing round (below 1 or above the round count), and a
match id absent from the addressed round.  In the pure model a failure
returns only the error, so the tournament value is left untouched. -/
theorem updateMatchScore_failure_spec (t : Tournament) (rn mid s1 s2 : Int) :
    (updateMatchScore t rn mid s1 s2 = .error .invalidScore ↔
      isValidScore s1 s2 = false) ∧
    (updateMatchScore t rn mid s1 s2 = .error .invalidRound ↔
      isValidScore s1 s2 = true ∧ (rn < 1 ∨ (t.rounds.length : Int) < rn)) ∧
    (updateMatchScore t rn mid s1 s2 = .error .matchNotFound ↔
      isValidScore s1 s2 = true ∧ 1 ≤ rn ∧ rn ≤ (t.rounds.length : Int) ∧
        (t.rounds.getD (rn - 1).toNat defaultRound).matchList.find?
          (fun m => m.id = mid) = none) := by
  rcases hv : isValidScore s1 s2 with _ | _
  · have he : updateMatchScore t rn mid s1 s2 = .error .invalidScore := by
      unfold updateMatchScore
      simp [hv]
    refine ⟨iff_of_true he rfl, iff_of_false ?_ ?_, iff_of_false ?_ ?_⟩
    · rw [he]
      intro h
      exact absurd (Except.error.inj h) (by decide)
    · intro h
      simp [hv] at h
    · rw [he]
      intro h
      exact absurd (Except.error.inj h) (by decide)
    · intro h
      simp [hv] at h
  · by_cases hcl : rn < 1 ∨ (t.rounds.length : Int) < rn
    · have h1 : rn - 1 < 0 ∨ (t.rounds.length : Int) ≤ rn - 1 := by omega
      have he : updateMatchScore t rn mid s1 s2 = .error .invalidRound := by
        unfold updateMatchScore
        simp only [hv, Bool.not_true, Bool.false_eq_true, if_false, if_pos h1]
      refine ⟨iff_of_false ?_ ?_, iff_of_true he ⟨rfl, hcl⟩, iff_of_false ?_ ?_⟩
      · rw [he]
        intro h
        exact absurd (Except.error.inj h) (by decide)
      · intro h
        simp [hv] at h
      · rw [he]
        intro h
        exact absurd (Except.error.inj h) (by decide)
      · intro h
        omega
    · have hr1 : 1 ≤ rn := by omega
      have hr2 : rn ≤ (t.rounds.length : Int) := by omega
      have h1 : ¬(rn - 1 < 0 ∨ (t.rounds.length : Int) ≤ rn - 1) := by omega
      rcases hfind : (t.rounds.getD (rn - 1).toNat defaultRound).matchList.find?
          (fun m => m.id = mid) with _ | m
      · have he : updateMatchScore t rn mid s1 s2 = .error .matchNotFound := by
          unfold updateMatchScore
          simp only [hv, Bool.not_true, Bool.false_eq_true, if_false, if_neg h1,
            hfind]
        refine ⟨iff_of_false ?_ ?_, iff_of_false ?_ ?_,
          iff_of_true he ⟨rfl, hr1, hr2, hfind⟩⟩
        · rw [he]
          intro h
          exact absurd (Except.error.inj h) (by decide)
        · intro h
          simp [hv] at h
        · rw [he]
          intro h
          exact absurd (Except.error.inj h) (by decide)
        · intro h
          omega
      · obtain ⟨t', ht'⟩ := updateMatchScore_ok_of t rn mid s1 s2 hv hr1 hr2
          (by rw [hfind]; intro hco; cases hco)
        refine ⟨iff_of_false ?_ ?_, iff_of_false ?_ ?_, iff_of_false ?_ ?_⟩
        · rw [ht']
          intro h
          cases h
        · intro h
          simp [hv] at h
        · rw [ht']
          intro h
          cases h
        · intro h
          omega
        · rw [ht']
          intro h
          cases h
        · intro h
          rw [hfind] at h
          exact absurd h.2.2.2 (by simp)

/-- Witness for C8 at concrete inputs: an invalid score pair, an out-of-range
round, and an unknown match id are each rejected with the corresponding
error on the fixture tournament. -/
theorem updateMatchScore_failure_witness :
    updateMatchScore exT 1 1 13 13 = .error .invalidScore ∧
      updateMatchScore exT 9 1 12 13 = .error .invalidRound ∧
      updateMatchScore exT 2 99 12 13 = .error .matchNotFound := by
  refine ⟨(updateMatchScore_failure_spec exT 1 1 13 13).1.mpr (by decide),
    (updateMatchScore_failure_spec exT 9 1 12 13).2.1.mpr (by decide),
    (updateMatchScore_failure_spec exT 2 99 12 13).2.2.mpr (by decide)⟩

/-! ### C3: pairing shape -/

/-- The four participant names of a match, in field order. -/
def participants (m : GameMatch) : List String :=
  [m.team1Player1, m.team1Player2, m.team2Player1, m.team2Player2]

theorem createInitialPairingsAux_length :
    ∀ (k : Nat) (ps : List String) (mid : Int), ps.length = 4 * k →
      (createInitialPairingsAux mid ps).length = k
  | 0, ps, mid, h => by
    cases ps with
    | nil => simp [createInitialPairingsAux]
    | cons a tl => simp only [List.length_cons] at h; omega
  | k + 1, p0 :: p1 :: p2 :: p3 :: rest, mid, h => by
    simp only [createInitialPairingsAux, List.length_cons]
    have := createInitialPairingsAux_length k rest (mid + 1)
      (by simp only [List.length_cons] at h; omega)
    omega
  | k + 1, [], mid, h => by simp only [List.length_nil] at h; omega
  | k + 1, [p0], mid, h => by
    simp only [List.length_cons, List.length_nil] at h; omega
  | k + 1, [p0, p1], mid, h => by
    simp only [List.length_cons, List.length_nil] at h; omega
  | k + 1, [p0, p1, p2], mid, h => by
    simp only [List.length_cons, List.length_nil] at h; omega

theorem createInitialPairingsAux_get? :
    ∀ (j : Nat) (ps : List String) (mid : Int), 4 * j + 3 < ps.length →
      ∃ m, (createInitialPairingsAux mid ps).get? j = some m ∧
        ps.get? (4 * j) = some m.team1Player1 ∧
        ps.get? (4 * j + 1) = some m.team2Player1 ∧
        ps.get? (4 * j + 2) = some m.team2Player2 ∧
        ps.get? (4 * j + 3) = some m.team1Player2
  | j, [], mid, h => by simp only [List.length_nil] at h; omega
  | j, [p0], mid, h => by
    simp only [List.length_cons, List.length_nil] at h; omega
  | j, [p0, p1], mid, h => by
    simp only [List.length_cons, List.length_nil] at h; omega
  | j, [p0, p1, p2], mid, h => by
    simp only [List.length_cons, List.length_nil] at h; omega
  | 0, p0 :: p1 :: p2 :: p3 :: rest, mid, h => by
    exact ⟨_, rfl, rfl, rfl, rfl, rfl⟩
  | j + 1, p0 :: p1 :: p2 :: p3 :: rest, mid, h => by
    have hlen : 4 * j + 3 < rest.length := by
      simp only [List.length_cons] at h; omega
    obtain ⟨m, h1, h2, h3, h4, h5⟩ :=
      createInitialPairingsAux_get? j rest (mid + 1) hlen
    refine ⟨m, ?_, ?_, ?_, ?_, ?_⟩
    · simpa [createInitialPairingsAux] using h1
    · have : 4 * (j + 1) = (4 * j + 3) + 1 := by omega
      rw [this]
      simpa using h2
    · have : 4 * (j + 1) + 1 = (4 * j + 3) + 2 := by omega
      rw [this]
      simpa using h3
    · have : 4 * (j + 1) + 2 = (4 * j + 3) + 3 := by omega
      rw [this]
      simpa using h4
    · have : 4 * (j + 1) + 3 = (4 * j + 3) + 4 := by omega
      rw [this]
      simpa using h5

theorem createInitialPairingsAux_flat_perm :
    ∀ (k : Nat) (ps : List String) (mid : Int), ps.length = 4 * k →
      ((createInitialPairingsAux mid ps).flatMap participants).Perm ps
  | 0, ps, mid, h => by
    cases ps with
    | nil => simp [createInitialPairingsAux]
    | cons a tl => simp at h
  | k + 1, p0 :: p1 :: p2 :: p3 :: rest, mid, h => by
    have ih := createInitialPairingsAux_flat_perm k rest (mid + 1)
      (by simp only [List.length_cons] at h; omega)
    simp only [createInitialPairingsAux, List.flatMap_cons]
    have hmid : ([p0, p1, p2, p3] ++ rest).Perm (p0 :: p1 :: p2 :: p3 :: rest) := by
      simp
    refine List.Perm.trans ?_ hmid
    refine List.Perm.append ?_ ih
    refine List.Perm.cons p0 ?_
    exact (List.perm_append_singleton p3 [p1, p2]).symm
  | k + 1, [], mid, h => by simp only [List.length_nil] at h; omega
  | k + 1, [p0], mid, h => by
    simp only [List.length_cons, List.length_nil] at h; omega
  | k + 1, [p0, p1], mid, h => by
    simp only [List.length_cons, List.length_nil] at h; omega
  | k + 1, [p0, p1, p2], mid, h => by
    simp only [List.length_cons, List.length_nil] at h; omega

theorem createMexicanoPairingsAux_length :
    ∀ (k : Nat) (ps : List PlayerStats) (mid : Int), ps.length = 4 * k →
      (createMexicanoPairingsAux mid ps).length = k
  | 0, ps, mid, h => by
    cases ps with
    | nil => simp [createMexicanoPairingsAux]
    | cons a tl => simp only [List.length_cons] at h; omega
  | k + 1, g0 :: g1 :: g2 :: g3 :: rest, mid, h => by
    simp only [createMexicanoPairingsAux, List.length_cons]
    have := createMexicanoPairingsAux_length k rest (mid + 1)
      (by simp only [List.length_cons] at h; omega)
    omega
  | k + 1, [], mid, h => by simp only [List.length_nil] at h; omega
  | k + 1, [g0], mid, h => by
    simp only [List.length_cons, List.length_nil] at h; omega
  | k + 1, [g0, g1], mid, h => by
    simp only [List.length_cons, List.length_nil] at h; omega
  | k + 1, [g0, g1, g2], mid, h => by
    simp only [List.length_cons, List.length_nil] at h; omega

theorem createMexicanoPairingsAux_get? :
    ∀ (j : Nat) (ps : List PlayerStats) (mid : Int), 4 * j + 3 < ps.length →
      ∃ m, (createMexicanoPairingsAux mid ps).get? j = some m ∧
        (ps.get? (4 * j)).map (fun s => s.name) = some m.team1Player1 ∧
        (ps.get? (4 * j + 1)).map (fun s => s.name) = some m.team2Player1 ∧
        (ps.get? (4 * j + 2)).map (fun s => s.name) = some m.team2Player2 ∧
        (ps.get? (4 * j + 3)).map (fun s => s.name) = some m.team1Player2
  | j, [], mid, h => by simp only [List.length_nil] at h; omega
  | j, [g0], mid, h => by
    simp only [List.length_cons, List.length_nil] at h; omega
  | j, [g0, g1], mid, h => by
    simp only [List.length_cons, List.length_nil] at h; omega
  | j, [g0, g1, g2], mid, h => by
    simp only [List.length_cons, List.length_nil] at h; omega
  | 0, g0 :: g1 :: g2 :: g3 :: rest, mid, h => by
    exact ⟨_, rfl, rfl, rfl, rfl, rfl⟩
  | j + 1, g0 :: g1 :: g2 :: g3 :: rest, mid, h => by
    have hlen : 4 * j + 3 < rest.length := by
      simp only [List.length_cons] at h; omega
    obtain ⟨m, h1, h2, h3, h4, h5⟩ :=
      createMexicanoPairingsAux_get? j rest (mid + 1) hlen
    refine ⟨m, ?_, ?_, ?_, ?_, ?_⟩
    · simpa [createMexicanoPairingsAux] using h1
    · have : 4 * (j + 1) = (4 * j + 3) + 1 := by omega
      rw [this]
      simpa using h2
    · have : 4 * (j + 1) + 1 = (4 * j + 3) + 2 := by omega
      rw [this]
      simpa using h3
    · have : 4 * (j + 1) + 2 = (4 * j + 3) + 3 := by omega
      rw [this]
      simpa using h4
    · have : 4 * (j + 1) + 3 = (4 * j + 3) + 4 := by omega
      rw [this]
      simpa using h5

theorem createMexicanoPairingsAux_flat_perm :
    ∀ (k : Nat) (ps : List PlayerStats) (mid : Int), ps.length = 4 * k →
      ((createMexicanoPairingsAux mid ps).flatMap participants).Perm
        (ps.map (fun s => s.name))
  | 0, ps, mid, h => by
    cases ps with
    | nil => simp [createMexicanoPairingsAux]
    | cons a tl => simp only [List.length_cons] at h; omega
  | k + 1, g0 :: g1 :: g2 :: g3 :: rest, mid, h => by
    have ih := createMexicanoPairingsAux_flat_perm k rest (mid + 1)
      (by simp only [List.length_cons] at h; omega)
    simp only [createMexicanoPairingsAux, List.flatMap_cons, List.map_cons]
    have hmid : ([g0.name, g1.name, g2.name, g3.name] ++
        rest.map (fun s => s.name)).Perm
        (g0.name :: g1.name :: g2.name :: g3.name :: rest.map (fun s => s.name)) := by
      simp
    refine List.Perm.trans ?_ hmid
    refine List.Perm.append ?_ ih
    refine List.Perm.cons g0.name ?_
    exact (List.perm_append_singleton g3.name [g1.name, g2.name]).symm
  | k + 1, [], mid, h => by simp only [List.length_nil] at h; omega
  | k + 1, [g0], mid, h => by
    simp only [List.length_cons, List.length_nil] at h; omega
  | k + 1, [g0, g1], mid, h => by
    simp only [List.length_cons, List.length_nil] at h; omega
  | k + 1, [g0, g1, g2], mid, h => by
    simp only [List.length_cons, List.length_nil] at h; omega

/-- C3: for 8, 12 or 16 distinct input players, both pairing functions
produce exactly n/4 matches; the j-th match is built from input positions
4j..4j+3 with team1 = first and fourth of the group and team2 = second and
third; the flattened participant lists are a permutation of the input (so
every input player appears in exactly one match), and each match uses four
distinct players. -/
theorem pairing_shape_spec (players : List String) (ranked : List PlayerStats)
    (hp : players.length = 8 ∨ players.length = 12 ∨ players.length = 16)
    (hnd : players.Nodup)
    (hq : ranked.length = 8 ∨ ranked.length = 12 ∨ ranked.length = 16)
    (hqnd : (ranked.map (fun s => s.name)).Nodup) :
    ((createInitialPairings players).length = players.length / 4 ∧
      (∀ j, 4 * j + 3 < players.length →
        ∃ m, (createInitialPairings players).get? j = some m ∧
          players.get? (4 * j) = some m.team1Player1 ∧
          players.get? (4 * j + 1) = some m.team2Player1 ∧
          players.get? (4 * j + 2) = some m.team2Player2 ∧
          players.get? (4 * j + 3) = some m.team1Player2) ∧
      ((createInitialPairings players).flatMap participants).Perm players ∧
      (∀ m ∈ createInitialPairings players, (participants m).Nodup)) ∧
    ((createMexicanoPairings ranked).length = ranked.length / 4 ∧
      (∀ j, 4 * j + 3 < ranked.length →
        ∃ m, (createMexicanoPairings ranked).get? j = some m ∧
          (ranked.get? (4 * j)).map (fun s => s.name) = some m.team1Player1 ∧
          (ranked.get? (4 * j + 1)).map (fun s => s.name) = some m.team2Player1 ∧
          (ranked.get? (4 * j + 2)).map (fun s => s.name) = some m.team2Player2 ∧
          (ranked.get? (4 * j + 3)).map (fun s => s.name) = some m.team1Player2) ∧
      ((createMexicanoPairings ranked).flatMap participants).Perm
        (ranked.map (fun s => s.name)) ∧
      (∀ m ∈ createMexicanoPairings ranked, (participants m).Nodup)) := by
  obtain ⟨k, hk⟩ : ∃ k, players.length = 4 * k := by
    rcases hp with h | h | h
    · exact ⟨2, by omega⟩
    · exact ⟨3, by omega⟩
    · exact ⟨4, by omega⟩
  obtain ⟨k2, hk2⟩ : ∃ k2, ranked.length = 4 * k2 := by
    rcases hq with h | h | h
    · exact ⟨2, by omega⟩
    · exact ⟨3, by omega⟩
    · exact ⟨4, by omega⟩
  have hperm := createInitialPairingsAux_flat_perm k players 1 hk
  have hperm2 := createMexicanoPairingsAux_flat_perm k2 ranked 1 hk2
  refine ⟨⟨?_, ?_, hperm, ?_⟩, ⟨?_, ?_, hperm2, ?_⟩⟩
  · rw [createInitialPairings, createInitialPairingsAux_length k players 1 hk]
    omega
  · intro j hj
    exact createInitialPairingsAux_get? j players 1 hj
  · intro m hm
    have hflat : ((createInitialPairings players).flatMap participants).Nodup :=
      hperm.symm.nodup hnd
    exact (List.nodup_flatMap.mp hflat).1 m hm
  · rw [createMexicanoPairings, createMexicanoPairingsAux_length k2 ranked 1 hk2]
    omega
  · intro j hj
    exact createMexicanoPairingsAux_get? j ranked 1 hj
  · intro m hm
    have hflat : ((createMexicanoPairings ranked).flatMap participants).Nodup :=
      hperm2.symm.nodup hqnd
    exact (List.nodup_flatMap.mp hflat).1 m hm

/-- Witness for C3 on a concrete 8-player input. -/
theorem pairing_shape_witness :
    (["A", "B", "C", "D", "E", "F", "G", "H"] : List String).Nodup ∧
      ((createInitialPairings ["A", "B", "C", "D", "E", "F", "G", "H"]).flatMap
        participants).Perm ["A", "B", "C", "D", "E", "F", "G", "H"] ∧
      (createMexicanoPairings
        (["A", "B", "C", "D", "E", "F", "G", "H"].map zeroStats)).length = 2 := by
  refine ⟨by decide, ?_, ?_⟩
  · exact (pairing_shape_spec ["A", "B", "C", "D", "E", "F", "G", "H"]
      (["A", "B", "C", "D", "E", "F", "G", "H"].map zeroStats)
      (by decide) (by decide) (by decide) (by decide)).1.2.2.1
  · have h := (pairing_shape_spec ["A", "B", "C", "D", "E", "F", "G", "H"]
      (["A", "B", "C", "D", "E", "F", "G", "H"].map zeroStats)
      (by decide) (by decide) (by decide) (by decide)).2.1
    simpa using h

/-! ### C2: the edit cascade -/

/-- Helper: a generated round is always numbered one past the existing
rounds. -/
theorem generateNextRound_roundNumber (t : Tournament) (nr : Round)
    (h : generateNextRound t = some nr) :
    nr.roundNumber = t.rounds.length + 1 := by
  unfold generateNextRound at h
  split at h
  · exact absurd h (by simp)
  · simp only [Option.some.injEq] at h
    rw [← h]
    rfl

/-- The round addressed by updateMatchScore, with the new scores written. -/
def editedRoundOf (t : Tournament) (rn mid s1 s2 : Int) : Round :=
  editRound (t.rounds.getD (rn - 1).toNat defaultRound) mid s1 s2

/-- The round list after a past-round edit, before regeneration: the scores
are written and every round after the edited one is discarded. -/
def cascadeRounds (t : Tournament) (rn mid s1 s2 : Int) : List Round :=
  (t.rounds.set (rn - 1).toNat (editedRoundOf t rn mid s1 s2)).take rn.toNat

/-- Core case analysis of a successful updateMatchScore call; the C2
theorem below restates it. -/
theorem updateMatchScore_ok_cases (t : Tournament) (rn mid s1 s2 : Int)
    (t' : Tournament) (h : updateMatchScore t rn mid s1 s2 = .ok t') :
    (1 ≤ rn ∧ rn ≤ (t.rounds.length : Int)) ∧
    t'.players = t.players ∧
    (rn < (t.rounds.length : Int) →
      (isRoundComplete (editedRoundOf t rn mid s1 s2) = true →
        ∃ nr, generateNextRound { t with rounds := cascadeRounds t rn mid s1 s2 }
            = some nr ∧
          t'.rounds = cascadeRounds t rn mid s1 s2 ++ [nr] ∧
          nr.roundNumber = rn.toNat + 1) ∧
      (isRoundComplete (editedRoundOf t rn mid s1 s2) = false →
        t'.rounds = cascadeRounds t rn mid s1 s2)) ∧
    (rn = (t.rounds.length : Int) →
      t'.rounds = t.rounds.set (rn - 1).toNat (editedRoundOf t rn mid s1 s2)) := by
  unfold updateMatchScore at h
  rcases hv : isValidScore s1 s2 with _ | _
  · rw [hv] at h
    exact absurd h (by simp)
  · rw [hv] at h
    simp only [Bool.not_true, Bool.false_eq_true, if_false] at h
    by_cases hr : rn - 1 < 0 ∨ (t.rounds.length : Int) ≤ rn - 1
    · rw [if_pos hr] at h
      exact absurd h (by simp)
    · rw [if_neg hr] at h
      rcases hfind : (t.rounds.getD (rn - 1).toNat defaultRound).matchList.find?
          (fun m => m.id = mid) with _ | m
      · rw [hfind] at h
        exact absurd h (by simp)
      · simp only [hfind] at h
        have hcr : List.take rn.toNat (t.rounds.set (rn - 1).toNat
            (editRound (t.rounds.getD (rn - 1).toNat defaultRound) mid s1 s2)) =
            cascadeRounds t rn mid s1 s2 := rfl
        have hco : editRound (t.rounds.getD (rn - 1).toNat defaultRound) mid s1 s2 =
            editedRoundOf t rn mid s1 s2 := rfl
        refine ⟨by omega, ?_, ?_, ?_⟩
        · by_cases hlt : rn < (t.rounds.length : Int)
          · rw [if_pos hlt] at h
            split at h
            · split at h
              all_goals
                simp only [Except.ok.injEq] at h
                rw [← h]
            · simp only [Except.ok.injEq] at h
              rw [← h]
          · rw [if_neg hlt] at h
            simp only [Except.ok.injEq] at h
            rw [← h]
        · intro hlt
          rw [if_pos hlt] at h
          have hgetd : ((t.rounds.set (rn - 1).toNat
              (editRound (t.rounds.getD (rn - 1).toNat defaultRound) mid s1 s2)).take
                rn.toNat).getD (rn - 1).toNat defaultRound =
              editedRoundOf t rn mid s1 s2 := by
            have hib : (rn - 1).toNat < rn.toNat := by omega
            have hib2 : (rn - 1).toNat < t.rounds.length := by omega
            rw [List.getD_eq_getElem?_getD, List.getElem?_take_of_lt hib,
              List.getElem?_set_self (by simpa using hib2)]
            rfl
          rw [hgetd, hcr] at h
          have hlast : getCurrentRound { t with rounds := cascadeRounds t rn mid s1 s2 }
              = some (editedRoundOf t rn mid s1 s2) := by
            unfold getCurrentRound cascadeRounds
            have hlen : ((t.rounds.set (rn - 1).toNat
                (editedRoundOf t rn mid s1 s2)).take rn.toNat).length = rn.toNat := by
              simp only [List.length_take, List.length_set]
              omega
            rw [List.getLast?_eq_getElem?, hlen,
              List.getElem?_take_of_lt (by omega : rn.toNat - 1 < rn.toNat)]
            have hidx : rn.toNat - 1 = (rn - 1).toNat := by omega
            rw [hidx, List.getElem?_set_self (by simpa using
              (by omega : (rn - 1).toNat < t.rounds.length))]
          constructor
          · intro hcmp
            rcases hgen : generateNextRound
                { t with rounds := cascadeRounds t rn mid s1 s2 } with _ | nr
            · exfalso
              unfold generateNextRound canStartNextRound at hgen
              simp [hlast, hcmp] at hgen
            · rw [if_pos hcmp, hgen] at h
              simp only [Except.ok.injEq] at h
              refine ⟨nr, rfl, by rw [← h], ?_⟩
              have hnum := generateNextRound_roundNumber _ _ hgen
              rw [hnum]
              simp only [cascadeRounds, List.length_take, List.length_set]
              omega
          · intro hcmp
            rw [if_neg (by simp [hcmp])] at h
            simp only [Except.ok.injEq] at h
            rw [← h]
        · intro heq
          have hlt : ¬ rn < (t.rounds.length : Int) := by omega
          rw [if_neg hlt] at h
          simp only [Except.ok.injEq] at h
          rw [← h]
          rfl

/-- The tournament produced by editing round 1, match 1 of `exT`. -/
def exTAfter : Tournament :=
  { name := "t", description := "", tournamentDate := "2024-01-01",
    players := ["A", "B", "C", "D", "E", "F", "G", "H"],
    rounds :=
      [ { roundNumber := 1, matchList :=
            [ mkM 1 "A" "D" "B" "C" (some 12) (some 13),
              mkM 2 "E" "H" "F" "G" (some 20) (some 5) ] },
        { roundNumber := 2, matchList :=
            [ mkM 3 "E" "C" "H" "B" none none,
              mkM 4 "A" "G" "D" "F" none none ] } ] }

/-- C2: a successful updateMatchScore call addresses an existing round
(1 <= rn <= round count) and never touches the player list.  For a
past-round edit (rn strictly below the current round number): every round
after rn is discarded; when the edited round is then complete, exactly one
regenerated round -- produced by generateNextRound from the truncated
tournament, i.e. paired from the recomputed standings -- is appended, and it
carries number rn + 1; when the edited round is still incomplete, nothing is
appended and the history ends at round rn.  For an edit of the current
(last) round, only that round's addressed match changes (via setScoreFirst)
and no round is appended or removed. -/
theorem updateMatchScore_cascade_spec (t : Tournament) (rn mid s1 s2 : Int)
    (t' : Tournament) (h : updateMatchScore t rn mid s1 s2 = .ok t') :
    (1 ≤ rn ∧ rn ≤ (t.rounds.length : Int)) ∧
    t'.players = t.players ∧
    (rn < (t.rounds.length : Int) →
      (isRoundComplete (editedRoundOf t rn mid s1 s2) = true →
        ∃ nr, generateNextRound { t with rounds := cascadeRounds t rn mid s1 s2 }
            = some nr ∧
          t'.rounds = cascadeRounds t rn mid s1 s2 ++ [nr] ∧
          nr.roundNumber = rn.toNat + 1) ∧
      (isRoundComplete (editedRoundOf t rn mid s1 s2) = false →
        t'.rounds = cascadeRounds t rn mid s1 s2)) ∧
    (rn = (t.rounds.length : Int) →
      t'.rounds = t.rounds.set (rn - 1).toNat (editedRoundOf t rn mid s1 s2)) :=
  updateMatchScore_ok_cases t rn mid s1 s2 t' h

/-- Witness for C2: editing round 1 of the three-round fixture discards
rounds 2 and 3 and appends a freshly generated round numbered 2. -/
theorem updateMatchScore_cascade_witness :
    updateMatchScore exT 1 1 12 13 = .ok exTAfter ∧
      isRoundComplete (editedRoundOf exT 1 1 12 13) = true ∧
      (∃ nr, generateNextRound { exT with rounds := cascadeRounds exT 1 1 12 13 }
          = some nr ∧
        exTAfter.rounds = cascadeRounds exT 1 1 12 13 ++ [nr] ∧
        nr.roundNumber = 2) := by
  have hok : updateMatchScore exT 1 1 12 13 = .ok exTAfter := by decide
  have h := updateMatchScore_cascade_spec exT 1 1 12 13 exTAfter hok
  exact ⟨hok, by decide, (h.2.2.1 (by decide)).1 (by decide)⟩


/-! ### C1: match ids across regeneration -/

theorem reassignIdsFrom_length :
    ∀ (ms : List GameMatch) (maxId : Int) (i : Nat),
      (reassignIdsFrom maxId i ms).length = ms.length
  | [], _, _ => rfl
  | m :: ms, maxId, i => by
    simp only [reassignIdsFrom, List.length_cons]
    rw [reassignIdsFrom_length ms maxId (i + 1)]

/-- The ids maxId+1, maxId+2, ..., maxId+n, in order. -/
def idRange (maxId : Int) : Nat → List Int
  | 0 => []
  | n + 1 => (maxId + 1) :: idRange (maxId + 1) n

theorem reassignIdsFrom_map_id :
    ∀ (ms : List GameMatch) (maxId : Int) (i : Nat),
      (reassignIdsFrom maxId i ms).map (fun m => m.id) =
        idRange (maxId + (i : Int)) ms.length
  | [], _, _ => rfl
  | m :: ms, maxId, i => by
    simp only [reassignIdsFrom, List.map_cons, List.length_cons, idRange]
    congr 1
    rw [reassignIdsFrom_map_id ms maxId (i + 1)]
    congr 1
    push_cast
    ring

theorem generateNextRound_ids (t : Tournament) (nr : Round)
    (h : generateNextRound t = some nr) :
    nr.matchList.map (fun m => m.id) = idRange (maxMatchId t) nr.matchList.length := by
  unfold generateNextRound at h
  split at h
  · exact absurd h (by simp)
  · simp only [Option.some.injEq] at h
    rw [← h]
    simp only
    rw [reassignIdsFrom_map_id, reassignIdsFrom_length]
    norm_num

/-- The id list of a round. -/
def roundIds (r : Round) : List Int :=
  r.matchList.map (fun m => m.id)

theorem setScoreFirst_map_id :
    ∀ (ms : List GameMatch) (mid s1 s2 : Int),
      (setScoreFirst mid s1 s2 ms).map (fun m => m.id) =
        ms.map (fun m => m.id)
  | [], _, _, _ => rfl
  | m :: ms, mid, s1, s2 => by
    simp only [setScoreFirst]
    split
    · simp
    · simp only [List.map_cons]
      rw [setScoreFirst_map_id ms mid s1 s2]

theorem maxMatchId_eq_foldIds (t : Tournament) :
    maxMatchId t = ((t.rounds.map roundIds).flatten).foldl max 0 := by
  unfold maxMatchId
  rw [← List.flatMap_def]
  unfold roundIds
  rw [← List.map_flatMap, List.foldl_map]

theorem maxMatchId_congr (t u : Tournament)
    (h : t.rounds.map roundIds = u.rounds.map roundIds) :
    maxMatchId t = maxMatchId u := by
  rw [maxMatchId_eq_foldIds, maxMatchId_eq_foldIds, h]

theorem set_getD_self :
    ∀ {α : Type} (l : List α) (i : Nat) (d : α), i < l.length →
      l.set i (l.getD i d) = l
  | _, a :: tl, 0, d, _ => by simp
  | _, a :: tl, i + 1, d, h => by
    simp only [List.getD_cons_succ, List.set_cons_succ, List.cons.injEq,
      true_and]
    exact set_getD_self tl i d (by simpa using h)
  | _, [], _, _, h => by simp at h

theorem cascadeRounds_roundIds (t : Tournament) (rn mid s1 s2 : Int)
    (h1 : 1 ≤ rn) (h2 : rn ≤ (t.rounds.length : Int)) :
    (cascadeRounds t rn mid s1 s2).map roundIds =
      (t.rounds.take rn.toNat).map roundIds := by
  have hib : (rn - 1).toNat < t.rounds.length := by omega
  unfold cascadeRounds
  rw [List.map_take, List.map_take, List.map_set]
  congr 1
  have hedited : roundIds (editedRoundOf t rn mid s1 s2) =
      roundIds (t.rounds.getD (rn - 1).toNat defaultRound) := by
    unfold editedRoundOf editRound roundIds
    exact setScoreFirst_map_id _ mid s1 s2
  rw [hedited]
  have hgetd : roundIds (t.rounds.getD (rn - 1).toNat defaultRound) =
      (t.rounds.map roundIds).getD (rn - 1).toNat (roundIds defaultRound) := by
    rw [List.getD_eq_getElem?_getD, List.getD_eq_getElem?_getD,
      List.getElem?_map]
    rcases t.rounds[(rn - 1).toNat]? with _ | r <;> rfl
  rw [hgetd]
  exact set_getD_self (t.rounds.map roundIds) (rn - 1).toNat _
    (by simpa using hib)

/-- C1 (amended): when a past-round edit regenerates a round, the new
round's match ids continue sequentially from the maximum match id of the
rounds that survive the truncation (rounds 1..rn, whose ids the score edit
leaves unchanged) -- not from the maximum over the whole original tournament:
ids appearing only in the discarded rounds are not consulted and may be
reused. -/
theorem regenerated_ids_spec (t : Tournament) (rn mid s1 s2 : Int)
    (t' : Tournament) (h : updateMatchScore t rn mid s1 s2 = .ok t')
    (hlt : rn < (t.rounds.length : Int))
    (hc : isRoundComplete (editedRoundOf t rn mid s1 s2) = true) :
    ∃ nr, t'.rounds = cascadeRounds t rn mid s1 s2 ++ [nr] ∧
      nr.matchList.map (fun m => m.id) =
        idRange (maxMatchId { t with rounds := cascadeRounds t rn mid s1 s2 })
          nr.matchList.length ∧
      maxMatchId { t with rounds := cascadeRounds t rn mid s1 s2 } =
        maxMatchId { t with rounds := t.rounds.take rn.toNat } := by
  have hcases := updateMatchScore_ok_cases t rn mid s1 s2 t' h
  obtain ⟨nr, hgen, hrounds, _⟩ := (hcases.2.2.1 hlt).1 hc
  refine ⟨nr, hrounds, generateNextRound_ids _ _ hgen, ?_⟩
  apply maxMatchId_congr
  exact cascadeRounds_roundIds t rn mid s1 s2 hcases.1.1 (by omega)

/-- Counterexample to C1 as stated: in the three-round fixture the largest
id ever used is 6 (id 3 and 4 belong to the original round 2), yet the
round regenerated after editing round 1 reuses ids 3 and 4 instead of
continuing with 7 and 8. -/
theorem matchId_reuse_counterexample :
    maxMatchId exT = 6 ∧
      (exT.rounds.getD 1 defaultRound).matchList.map (fun m => m.id) = [3, 4] ∧
      updateMatchScore exT 1 1 12 13 = .ok exTAfter ∧
      (exTAfter.rounds.getD 1 defaultRound).matchList.map (fun m => m.id)
        = [3, 4] ∧
      ¬ (exTAfter.rounds.getD 1 defaultRound).matchList.map (fun m => m.id)
        = [maxMatchId exT + 1, maxMatchId exT + 2] := by decide

/-- Witness for the amended C1 on the fixture edit. -/
theorem regenerated_ids_witness :
    updateMatchScore exT 1 1 12 13 = .ok exTAfter ∧
      (∃ nr, exTAfter.rounds = cascadeRounds exT 1 1 12 13 ++ [nr] ∧
        nr.matchList.map (fun m => m.id) =
          idRange (maxMatchId { exT with rounds := cascadeRounds exT 1 1 12 13 })
            nr.matchList.length ∧
        maxMatchId { exT with rounds := cascadeRounds exT 1 1 12 13 } =
          maxMatchId { exT with rounds := exT.rounds.take 1 }) := by
  have hok : updateMatchScore exT 1 1 12 13 = .ok exTAfter := by decide
  exact ⟨hok, regenerated_ids_spec exT 1 1 12 13 exTAfter hok (by decide)
    (by decide)⟩

/-! ### C9: the edit window -/

/-- Helper: generateNextRound never reads the tournament date. -/
theorem generateNextRound_date_irrel (t : Tournament) (d : String) :
    generateNextRound { t with tournamentDate := d } = generateNextRound t := rfl

/-- C9 (amended): `canEdit` returns false exactly from the start of the
second calendar day after the tournament date onwards, but updateMatchScore
itself never consults the edit window: it takes no clock, and its outcome is
independent of the tournament's date field, so an otherwise-valid edit is
applied even outside the window (enforcement is left to the caller). -/
theorem editWindow_spec :
    (∀ dayStart now : Int,
      canEdit dayStart now = false ↔ dayStart + 2 * 86400000 ≤ now) ∧
    (∀ (t : Tournament) (d : String) (rn mid s1 s2 : Int),
      updateMatchScore { t with tournamentDate := d } rn mid s1 s2 =
        (updateMatchScore t rn mid s1 s2).map
          (fun u => { u with tournamentDate := d })) := by
  constructor
  · intro dayStart now
    simp only [canEdit, decide_eq_false_iff_not, not_lt]
  · intro t d rn mid s1 s2
    unfold updateMatchScore
    dsimp only
    rcases hv : isValidScore s1 s2 with _ | _
    · simp only [hv, Bool.not_false, if_true]
      rfl

    · simp only [hv, Bool.not_true, Bool.false_eq_true, if_false]
      by_cases hr : rn - 1 < 0 ∨ (t.rounds.length : Int) ≤ rn - 1
      · rw [if_pos hr, if_pos hr]
        rfl
      · rw [if_neg hr, if_neg hr]
        rcases hfind : (t.rounds.getD (rn - 1).toNat defaultRound).matchList.find?
            (fun m => m.id = mid) with _ | m
        · rw [hfind]
          rfl
        · rw [hfind]
          dsimp only
          have hcr : List.take rn.toNat (t.rounds.set (rn - 1).toNat
              (editRound (t.rounds.getD (rn - 1).toNat defaultRound) mid s1 s2)) =
              cascadeRounds t rn mid s1 s2 := rfl
          rw [hcr]
          by_cases hlt : rn < (t.rounds.length : Int)
          · rw [if_pos hlt, if_pos hlt]
            have hgd : generateNextRound
                { name := t.name, description := t.description,
                  tournamentDate := d, players := t.players,
                  rounds := cascadeRounds t rn mid s1 s2 } =
                generateNextRound
                { name := t.name, description := t.description,
                  tournamentDate := t.tournamentDate, players := t.players,
                  rounds := cascadeRounds t rn mid s1 s2 } := rfl
            by_cases hcm : isRoundComplete
                ((cascadeRounds t rn mid s1 s2).getD (rn - 1).toNat defaultRound)
                  = true
            · rw [if_pos hcm, if_pos hcm, hgd]
              rcases hgen : generateNextRound
                  { name := t.name, description := t.description,
                    tournamentDate := t.tournamentDate, players := t.players,
                    rounds := cascadeRounds t rn mid s1 s2 } with _ | nr
              · simp only [hgen]
                rfl
              · simp only [hgen]
                rfl
            · rw [if_neg hcm, if_neg hcm]
              rfl
          · rw [if_neg hlt, if_neg hlt]
            rfl

/-- Counterexample to C9 as stated: at a time three days past the start of
the tournament day the edit window is closed, yet updateMatchScore (which
receives no clock) accepts the edit and mutates the fixture tournament
rather than reporting a StateError. -/
theorem editWindow_not_enforced_counterexample :
    canEdit 0 (3 * 86400000) = false ∧
      updateMatchScore exT 1 1 12 13 = .ok exTAfter ∧
      exTAfter ≠ exT := by decide

/-! ### C10 and C5: statistics -/

/-- All matches of a tournament, in round order. -/
def allMatches (t : Tournament) : List GameMatch :=
  t.rounds.flatMap (fun r => r.matchList)

theorem slotBump_name (q : String) (sc : Int) (w : Bool) (s : PlayerStats) :
    (slotBump q sc w s).name = s.name := by
  unfold slotBump bumpStat
  split <;> rfl

theorem deriveStats_name (s : PlayerStats) : (deriveStats s).name = s.name := by
  unfold deriveStats
  split <;> rfl

theorem addTeamScore_names (l : List PlayerStats) (q : String) (sc : Int)
    (w : Bool) :
    (addTeamScore l q sc w).map (fun s => s.name) = l.map (fun s => s.name) := by
  unfold addTeamScore
  rw [List.map_map]
  apply List.map_congr_left
  intro s _
  exact slotBump_name q sc w s

theorem applyMatch_names (l : List PlayerStats) (m : GameMatch) :
    (applyMatch l m).map (fun s => s.name) = l.map (fun s => s.name) := by
  obtain ⟨mid, a1, a2, b1, b2, os1, os2⟩ := m
  cases os1 <;> cases os2 <;> simp only [applyMatch] <;> try rfl
  split
  · simp only [addTeamScore_names]
  · rfl

theorem foldl_applyMatch_names (ms : List GameMatch) (l : List PlayerStats) :
    ((ms.foldl applyMatch l).map (fun s => s.name)) = l.map (fun s => s.name) := by
  induction ms generalizing l with
  | nil => rfl
  | cons m ms ih => rw [List.foldl_cons, ih, applyMatch_names]

theorem foldl_rounds_names (rs : List Round) (l : List PlayerStats) :
    ((rs.foldl (fun acc r => r.matchList.foldl applyMatch acc) l).map
      (fun s => s.name)) = l.map (fun s => s.name) := by
  induction rs generalizing l with
  | nil => rfl
  | cons r rs ih => rw [List.foldl_cons, ih, foldl_applyMatch_names]

theorem initStats_names (players : List String) :
    (initStats players).map (fun s => s.name) = players := by
  unfold initStats
  rw [List.map_map]
  exact List.map_id players

theorem calculateStats_names (t : Tournament) :
    (calculateStats t).map (fun s => s.name) = t.players := by
  unfold calculateStats
  rw [List.map_map]
  have : ((fun s => s.name) ∘ deriveStats) = (fun (s : PlayerStats) => s.name) := by
    funext s
    exact deriveStats_name s
  rw [this, foldl_rounds_names, initStats_names]

theorem calculateStats_find?_not_declared (t : Tournament) (q : String)
    (hq : q ∉ t.players) :
    (calculateStats t).find? (fun s => s.name = q) = none := by
  rw [List.find?_eq_none]
  intro x hx
  simp only [decide_eq_true_eq]
  intro hxe
  apply hq
  rw [← calculateStats_names t]
  rw [← hxe]
  exact List.mem_map_of_mem (fun s => s.name) hx

theorem addTeamScore_not_present (l : List PlayerStats) (q : String)
    (sc : Int) (w : Bool) (hq : q ∉ l.map (fun s => s.name)) :
    addTeamScore l q sc w = l := by
  unfold addTeamScore
  conv_rhs => rw [← List.map_id l]
  apply List.map_congr_left
  intro s hs
  unfold slotBump
  rw [if_neg]
  · rfl
  · intro hc
    exact hq (hc ▸ List.mem_map_of_mem (fun s => s.name) hs)

theorem applyMatch_not_present (l : List PlayerStats) (m : GameMatch)
    (hq : ∀ q ∈ participants m, q ∉ l.map (fun s => s.name)) :
    applyMatch l m = l := by
  have h1 := hq m.team1Player1 (by simp [participants])
  have h2 := hq m.team1Player2 (by simp [participants])
  have h3 := hq m.team2Player1 (by simp [participants])
  have h4 := hq m.team2Player2 (by simp [participants])
  obtain ⟨mid, a1, a2, b1, b2, os1, os2⟩ := m
  simp only at h1 h2 h3 h4
  cases os1 <;> cases os2 <;> simp only [applyMatch] <;> try rfl
  split
  · rw [addTeamScore_not_present _ _ _ _ h1]
    rw [addTeamScore_not_present _ _ _ _ h2]
    rw [addTeamScore_not_present _ _ _ _ h3]
    rw [addTeamScore_not_present _ _ _ _ h4]
  · rfl

/-- C10: calculateStats is keyed by exactly the declared players, in order;
a name that is not declared has no entry, and a complete match all of whose
participants are undeclared contributes nothing at all (it is silently
ignored; in the pure model no error can be raised). -/
theorem calculateStats_unknown_names_spec (t : Tournament) :
    ((calculateStats t).map (fun s => s.name) = t.players) ∧
    (∀ q, q ∉ t.players →
      (calculateStats t).find? (fun s => s.name = q) = none) ∧
    (∀ (k : Nat) (m : GameMatch), (∀ q ∈ participants m, q ∉ t.players) →
      calculateStats
        { t with rounds := t.rounds ++ [{ roundNumber := k, matchList := [m] }] }
        = calculateStats t) := by
  refine ⟨calculateStats_names t, fun q hq =>
    calculateStats_find?_not_declared t q hq, ?_⟩
  intro k m hm
  unfold calculateStats
  congr 1
  rw [List.foldl_append]
  simp only [List.foldl_cons, List.foldl_nil]
  apply applyMatch_not_present
  intro q hq
  rw [foldl_rounds_names, initStats_names]
  exact hm q hq

/-- Witness for C10 on the fixture: the stats keys are the eight players,
"Zed" has no entry, and a match of four undeclared players changes nothing. -/
theorem calculateStats_unknown_names_witness :
    ("Zed" ∉ exT.players) ∧
      (calculateStats exT).find? (fun s => s.name = "Zed") = none ∧
      calculateStats
        { exT with rounds := exT.rounds ++ [{ roundNumber := 4, matchList :=
          [mkM 7 "W" "X" "Y" "Zed" (some 13) (some 12)] }] } = calculateStats exT := by
  have h := calculateStats_unknown_names_spec exT
  refine ⟨by decide, h.2.1 "Zed" (by decide), ?_⟩
  exact h.2.2 4 (mkM 7 "W" "X" "Y" "Zed" (some 13) (some 12)) (by decide)

/-! ### C5: the per-player characterisation of calculateStats -/

/-- Whether p occupies a team-1 slot of m. -/
def playsFor1 (p : String) (m : GameMatch) : Bool :=
  p == m.team1Player1 || p == m.team1Player2

/-- Whether p occupies a team-2 slot of m. -/
def playsFor2 (p : String) (m : GameMatch) : Bool :=
  p == m.team2Player1 || p == m.team2Player2

/-- Whether the complete match m counts as a played game for p. -/
def gamesFor (p : String) (m : GameMatch) : Bool :=
  isMatchComplete m && (playsFor1 p m || playsFor2 p m)

/-- Whether p is on the higher-scoring team of the complete match m. -/
def winFor (p : String) (m : GameMatch) : Bool :=
  isMatchComplete m &&
    (match m.team1Score, m.team2Score with
     | some s1, some s2 => if s2 < s1 then playsFor1 p m else playsFor2 p m
     | _, _ => false)

/-- Whether p is on the lower-scoring team of the complete match m. -/
def lossFor (p : String) (m : GameMatch) : Bool :=
  gamesFor p m && !winFor p m

/-- The points p's team scores in m (0 for incomplete matches and
non-participants). -/
def pointsFor (p : String) (m : GameMatch) : Int :=
  if isMatchComplete m then
    (if playsFor1 p m then (m.team1Score.getD 0)
     else if playsFor2 p m then (m.team2Score.getD 0) else 0)
  else 0

/-- The per-player effect of one match inside the calculateStats fold: the
four guarded slot updates of applyMatch, composed. -/
def stepStat (m : GameMatch) (s : PlayerStats) : PlayerStats :=
  match m.team1Score, m.team2Score with
  | some s1, some s2 =>
    if isValidScore s1 s2 then
      let team1Won : Bool := decide (s2 < s1)
      slotBump m.team2Player2 s2 (!team1Won)
        (slotBump m.team2Player1 s2 (!team1Won)
          (slotBump m.team1Player2 s1 team1Won
            (slotBump m.team1Player1 s1 team1Won s)))
    else s
  | _, _ => s

theorem find?_map_name_preserving (l : List PlayerStats)
    (g : PlayerStats → PlayerStats) (hg : ∀ s, (g s).name = s.name)
    (p : String) :
    (l.map g).find? (fun s => s.name = p) =
      (l.find? (fun s => s.name = p)).map g := by
  rw [List.find?_map]
  have : ((fun s : PlayerStats => decide (s.name = p)) ∘ g) =
      (fun s : PlayerStats => decide (s.name = p)) := by
    funext s
    simp [Function.comp, hg s]
  rw [show (fun s : PlayerStats => decide (s.name = p)) ∘ g =
    (fun s : PlayerStats => decide (s.name = p)) from this]

theorem option_map_id_fun (o : Option PlayerStats) :
    o.map (fun s => s) = o := by
  cases o <;> rfl

theorem find?_applyMatch (l : List PlayerStats) (m : GameMatch) (p : String) :
    (applyMatch l m).find? (fun s => s.name = p) =
      (l.find? (fun s => s.name = p)).map (stepStat m) := by
  obtain ⟨mid, a1, a2, b1, b2, os1, os2⟩ := m
  cases os1 with
  | none =>
    cases os2 with
    | none => exact (option_map_id_fun _).symm
    | some s2 => exact (option_map_id_fun _).symm
  | some s1 =>
    cases os2 with
    | none => exact (option_map_id_fun _).symm
    | some s2 =>
      rcases hv : isValidScore s1 s2 with _ | _
      · have happ : applyMatch l
            ⟨mid, a1, a2, b1, b2, some s1, some s2⟩ = l := by
          simp only [applyMatch, hv, Bool.false_eq_true, if_false]
        have hstep : stepStat ⟨mid, a1, a2, b1, b2, some s1, some s2⟩ =
            fun s => s := by
          funext s
          simp only [stepStat, hv, Bool.false_eq_true, if_false]
        rw [happ, hstep, option_map_id_fun]
      · have happ : applyMatch l ⟨mid, a1, a2, b1, b2, some s1, some s2⟩ =
            addTeamScore (addTeamScore (addTeamScore (addTeamScore l
              a1 s1 (decide (s2 < s1))) a2 s1 (decide (s2 < s1)))
              b1 s2 (!decide (s2 < s1))) b2 s2 (!decide (s2 < s1)) := by
          simp only [applyMatch, hv, if_true]
        have hstep : stepStat ⟨mid, a1, a2, b1, b2, some s1, some s2⟩ =
            fun s => slotBump b2 s2 (!decide (s2 < s1))
              (slotBump b1 s2 (!decide (s2 < s1))
                (slotBump a2 s1 (decide (s2 < s1))
                  (slotBump a1 s1 (decide (s2 < s1)) s))) := by
          funext s
          simp only [stepStat, hv, if_true]
        rw [happ, hstep]
        unfold addTeamScore
        rw [find?_map_name_preserving _ _ (slotBump_name _ _ _),
            find?_map_name_preserving _ _ (slotBump_name _ _ _),
            find?_map_name_preserving _ _ (slotBump_name _ _ _),
            find?_map_name_preserving _ _ (slotBump_name _ _ _)]
        cases (l.find? fun s => s.name = p) <;> rfl

theorem find?_foldl_applyMatch (ms : List GameMatch) (l : List PlayerStats)
    (p : String) :
    ((ms.foldl applyMatch l).find? (fun s => s.name = p)) =
      (l.find? (fun s => s.name = p)).map
        (fun s => ms.foldl (fun acc m => stepStat m acc) s) := by
  induction ms generalizing l with
  | nil => exact (option_map_id_fun _).symm
  | cons m ms ih =>
    rw [List.foldl_cons, ih, find?_applyMatch]
    cases (l.find? fun s => s.name = p) <;> rfl

theorem rounds_foldl_eq_allMatches (rs : List Round) (l : List PlayerStats) :
    rs.foldl (fun acc r => r.matchList.foldl applyMatch acc) l =
      (rs.flatMap (fun r => r.matchList)).foldl applyMatch l := by
  induction rs generalizing l with
  | nil => rfl
  | cons r rs ih =>
    rw [List.foldl_cons, List.flatMap_cons, List.foldl_append, ih]

theorem initStats_find? (players : List String) (p : String)
    (hp : p ∈ players) :
    (initStats players).find? (fun s => s.name = p) = some (zeroStats p) := by
  induction players with
  | nil => cases hp
  | cons q tl ih =>
    simp only [initStats, List.map_cons, List.find?_cons]
    by_cases hq : q = p
    · rw [hq]
      simp [zeroStats]
    · have hfq : (decide ((zeroStats q).name = p)) = false := by
        simpa [zeroStats] using hq
      rw [hfq]
      rcases List.mem_cons.mp hp with h | h
      · exact absurd h.symm hq
      · exact ih h

set_option maxHeartbeats 1000000 in
theorem stepStat_fields (p : String) (m : GameMatch) (s : PlayerStats)
    (hname : s.name = p) (hnd : (participants m).Nodup) :
    (stepStat m s).name = p ∧
    (stepStat m s).totalPoints = s.totalPoints + pointsFor p m ∧
    (stepStat m s).gamesPlayed
      = s.gamesPlayed + (if gamesFor p m then 1 else 0) ∧
    (stepStat m s).wins = s.wins + (if winFor p m then 1 else 0) ∧
    (stepStat m s).losses = s.losses + (if lossFor p m then 1 else 0) ∧
    (stepStat m s).pointsPerGame = s.pointsPerGame ∧
    (stepStat m s).winPercentage = s.winPercentage ∧
    (stepStat m s).rank = s.rank := by
  obtain ⟨mid, a1, a2, b1, b2, os1, os2⟩ := m
  simp only [participants, List.nodup_cons, List.mem_cons, List.mem_singleton,
    List.not_mem_nil, or_false, not_or, List.nodup_nil, and_true] at hnd
  cases os1 with
  | none =>
    cases os2 with
    | none =>
      simp [stepStat, pointsFor, gamesFor, winFor, lossFor, isMatchComplete,
        hname]
    | some s2 =>
      simp [stepStat, pointsFor, gamesFor, winFor, lossFor, isMatchComplete,
        hname]
  | some s1 =>
    cases os2 with
    | none =>
      simp [stepStat, pointsFor, gamesFor, winFor, lossFor, isMatchComplete,
        hname]
    | some s2 =>
      rcases hv : isValidScore s1 s2 with _ | _
      · simp [stepStat, pointsFor, gamesFor, winFor, lossFor, isMatchComplete,
          hv, hname]
      · rcases hw : decide (s2 < s1) with _ | _ <;>
          by_cases h1 : p = a1 <;> by_cases h2 : p = a2 <;>
          by_cases h3 : p = b1 <;> by_cases h4 : p = b2 <;>
          simp_all [stepStat, slotBump, bumpStat, pointsFor, gamesFor, winFor,
            lossFor, playsFor1, playsFor2, isMatchComplete] <;>
          (try (split_ifs <;> omega))

theorem foldl_stepStat_fields (p : String) :
    ∀ (ms : List GameMatch) (s : PlayerStats), s.name = p →
      (∀ m ∈ ms, (participants m).Nodup) →
      ((ms.foldl (fun acc m => stepStat m acc) s).name = p ∧
       (ms.foldl (fun acc m => stepStat m acc) s).totalPoints
         = s.totalPoints + (ms.map (pointsFor p)).sum ∧
       (ms.foldl (fun acc m => stepStat m acc) s).gamesPlayed
         = s.gamesPlayed + ms.countP (gamesFor p) ∧
       (ms.foldl (fun acc m => stepStat m acc) s).wins
         = s.wins + ms.countP (winFor p) ∧
       (ms.foldl (fun acc m => stepStat m acc) s).losses
         = s.losses + ms.countP (lossFor p) ∧
       (ms.foldl (fun acc m => stepStat m acc) s).pointsPerGame
         = s.pointsPerGame ∧
       (ms.foldl (fun acc m => stepStat m acc) s).winPercentage
         = s.winPercentage ∧
       (ms.foldl (fun acc m => stepStat m acc) s).rank = s.rank) := by
  intro ms
  induction ms with
  | nil =>
    intro s hname _
    simp [hname]
  | cons m ms ih =>
    intro s hname hnd
    obtain ⟨k1, k2, k3, k4, k5, k6, k7, k8⟩ :=
      stepStat_fields p m s hname (hnd m (by simp))
    obtain ⟨j1, j2, j3, j4, j5, j6, j7, j8⟩ :=
      ih (stepStat m s) k1 (fun x hx => hnd x (by simp [hx]))
    simp only [List.foldl_cons, List.map_cons, List.sum_cons, List.countP_cons]
    refine ⟨j1, ?_, ?_, ?_, ?_, ?_, ?_, ?_⟩
    · rw [j2, k2]
      ring
    · rw [j3, k3]
      rcases gamesFor p m <;> simp <;> omega
    · rw [j4, k4]
      rcases winFor p m <;> simp <;> omega
    · rw [j5, k5]
      rcases lossFor p m <;> simp <;> omega
    · rw [j6, k6]
    · rw [j7, k7]
    · rw [j8, k8]

/-- C5: calculateStats has an entry for every declared player p, whose
fields are exactly: total points = the sum over complete matches of the
score of p's team; games played = the number of complete matches p plays
in; wins / losses = the number of complete matches where p is on the
higher- / lower-scoring team; pointsPerGame = totalPoints/gamesPlayed and
winPercentage = 100*wins/gamesPlayed once at least one game was played and
0 otherwise.  Incomplete matches contribute nothing, and a player with no
complete matches keeps the all-zero initial stats.  The match-participant
distinctness hypothesis is the data-model invariant that no player appears
twice within one match. -/
theorem calculateStats_spec (t : Tournament) (p : String) (hp : p ∈ t.players)
    (hnd : ∀ m ∈ allMatches t, (participants m).Nodup) :
    ∃ s, (calculateStats t).find? (fun x => x.name = p) = some s ∧
      s.name = p ∧
      s.totalPoints = ((allMatches t).map (pointsFor p)).sum ∧
      s.gamesPlayed = (allMatches t).countP (gamesFor p) ∧
      s.wins = (allMatches t).countP (winFor p) ∧
      s.losses = (allMatches t).countP (lossFor p) ∧
      s.pointsPerGame = (if 0 < s.gamesPlayed
        then (s.totalPoints : ℚ) / (s.gamesPlayed : ℚ) else 0) ∧
      s.winPercentage = (if 0 < s.gamesPlayed
        then 100 * (s.wins : ℚ) / (s.gamesPlayed : ℚ) else 0) := by
  have hall : t.rounds.flatMap (fun r => r.matchList) = allMatches t := rfl
  unfold calculateStats
  rw [find?_map_name_preserving _ _ deriveStats_name,
    rounds_foldl_eq_allMatches, hall, find?_foldl_applyMatch,
    initStats_find? _ _ hp]
  obtain ⟨k1, k2, k3, k4, k5, k6, k7, k8⟩ :=
    foldl_stepStat_fields p (allMatches t) (zeroStats p) rfl hnd
  set r := (allMatches t).foldl (fun acc m => stepStat m acc) (zeroStats p)
    with hr
  simp only [zeroStats] at k2 k3 k4 k5 k6 k7
  refine ⟨deriveStats r, rfl, ?_, ?_, ?_, ?_, ?_, ?_, ?_⟩
  · unfold deriveStats
    split <;> simpa using k1
  · unfold deriveStats
    split <;> simpa using k2
  · unfold deriveStats
    split <;> simpa using k3
  · unfold deriveStats
    split <;> simpa using k4
  · unfold deriveStats
    split <;> simpa using k5
  · unfold deriveStats
    split
    · exact Rat.mkRat_eq_div _ _
    · exact k6
  · unfold deriveStats
    split
    · show mkRat ((r.wins : Int) * 100) r.gamesPlayed
        = 100 * (r.wins : ℚ) / (r.gamesPlayed : ℚ)
      rw [Rat.mkRat_eq_div, Int.cast_mul, Int.cast_natCast, Int.cast_ofNat]
      ring
    · exact k7

/-- Witness for C5: player "A" of the fixture tournament. -/
theorem calculateStats_spec_witness :
    ∃ s, (calculateStats exT).find? (fun x => x.name = "A") = some s ∧
      s.name = "A" ∧
      s.totalPoints = ((allMatches exT).map (pointsFor "A")).sum ∧
      s.gamesPlayed = (allMatches exT).countP (gamesFor "A") ∧
      s.wins = (allMatches exT).countP (winFor "A") ∧
      s.losses = (allMatches exT).countP (lossFor "A") ∧
      s.pointsPerGame = (if 0 < s.gamesPlayed
        then (s.totalPoints : ℚ) / (s.gamesPlayed : ℚ) else 0) ∧
      s.winPercentage = (if 0 < s.gamesPlayed
        then 100 * (s.wins : ℚ) / (s.gamesPlayed : ℚ) else 0) :=
  calculateStats_spec exT "A" (by decide) (by decide)

/-! ### C4: ranking -/

theorem cmpBy_eq_lt {α : Type} [LinearOrder α] (x y : α) :
    cmpBy x y = .lt ↔ x < y := by
  unfold cmpBy
  split_ifs with h1 h2 <;> simp_all

theorem cmpBy_eq_eq {α : Type} [LinearOrder α] (x y : α) :
    cmpBy x y = .eq ↔ x = y := by
  unfold cmpBy
  split_ifs with h1 h2
  · exact iff_of_false (by decide) (ne_of_lt h1)
  · exact iff_of_true rfl h2
  · exact iff_of_false (by decide) h2

theorem cmpBy_eq_gt {α : Type} [LinearOrder α] (x y : α) :
    cmpBy x y = .gt ↔ y < x := by
  unfold cmpBy
  split_ifs with h1 h2
  · exact iff_of_false (by decide) (lt_asymm h1)
  · refine iff_of_false (by decide) ?_
    intro hc
    rw [h2] at hc
    exact absurd hc (lt_irrefl y)
  · refine iff_of_true rfl ?_
    rcases lt_trichotomy x y with h | h | h
    · exact absurd h h1
    · exact absurd h h2
    · exact h

theorem charListCmp_eq_lt :
    ∀ cs ds : List Char, charListCmp cs ds = .lt ↔ List.lt cs ds
  | [], [] => by
    simp only [charListCmp]
    constructor
    · intro h
      cases h
    · intro h
      cases h
  | [], d :: ds =>
    iff_of_true rfl (List.lt.nil d ds)
  | c :: cs, [] => by
    simp only [charListCmp]
    constructor
    · intro h
      cases h
    · intro h
      cases h
  | c :: cs, d :: ds => by
    simp only [charListCmp]
    split_ifs with h1 h2
    · exact iff_of_true rfl (List.lt.head cs ds h1)
    · constructor
      · intro h
        cases h
      · intro h
        cases h with
        | head _ _ hlt => exact absurd hlt h1
        | tail _ hnlt _ => exact absurd h2 hnlt
    · rw [charListCmp_eq_lt cs ds]
      constructor
      · intro h
        exact List.lt.tail h1 h2 h
      · intro h
        cases h with
        | head _ _ hlt => exact absurd hlt h1
        | tail _ _ htl => exact htl

theorem charListCmp_eq_eq :
    ∀ cs ds : List Char, charListCmp cs ds = .eq ↔ cs = ds
  | [], [] => by simp [charListCmp]
  | [], d :: ds => by simp [charListCmp]
  | c :: cs, [] => by simp [charListCmp]
  | c :: cs, d :: ds => by
    simp only [charListCmp]
    split_ifs with h1 h2
    · simp only [List.cons.injEq]
      constructor
      · intro h
        cases h
      · rintro ⟨he, _⟩
        exact absurd (he ▸ h1) (lt_irrefl c)
    · simp only [List.cons.injEq]
      constructor
      · intro h
        cases h
      · rintro ⟨he, _⟩
        exact absurd (he ▸ h2) (lt_irrefl c)
    · rw [charListCmp_eq_eq cs ds]
      have hcd : c = d := le_antisymm (not_lt.mp h2) (not_lt.mp h1)
      simp [hcd]

theorem strCmp_eq_lt (a b : String) : strCmp a b = .lt ↔ a < b := by
  unfold strCmp
  rw [charListCmp_eq_lt, List.lt_iff_lex_lt]
  exact (String.lt_iff_toList_lt).symm

theorem strCmp_eq_eq (a b : String) : strCmp a b = .eq ↔ a = b := by
  unfold strCmp
  rw [charListCmp_eq_eq]
  constructor
  · intro h
    cases a
    cases b
    exact congrArg String.mk (by simpa using h)
  · intro h
    rw [h]

theorem strCmp_eq_gt (a b : String) : strCmp a b = .gt ↔ b < a := by
  rcases h : strCmp a b with _ | _ | _
  · exact iff_of_false (by simp) (lt_asymm ((strCmp_eq_lt a b).mp h))
  · refine iff_of_false (by simp) ?_
    rw [(strCmp_eq_eq a b).mp h]
    exact lt_irrefl b
  · refine iff_of_true rfl ?_
    rcases lt_trichotomy a b with hlt | heq | hgt
    · exact absurd ((strCmp_eq_lt a b).mpr hlt) (by rw [h]; decide)
    · exact absurd ((strCmp_eq_eq a b).mpr heq) (by rw [h]; decide)
    · exact hgt

/-- The sort key of rankPlayers as a relation, exactly as the spec states
it: totalPoints descending, then wins descending, then pointsPerGame
descending, then name ascending. -/
def KeyLE (a b : PlayerStats) : Prop :=
  b.totalPoints < a.totalPoints ∨
    (a.totalPoints = b.totalPoints ∧
      (b.wins < a.wins ∨
        (a.wins = b.wins ∧
          (b.pointsPerGame < a.pointsPerGame ∨
            (a.pointsPerGame = b.pointsPerGame ∧ a.name ≤ b.name)))))

theorem leStats_iff_KeyLE (a b : PlayerStats) :
    leStats a b = true ↔ KeyLE a b := by
  unfold leStats statsCmp KeyLE
  rcases h1 : cmpBy b.totalPoints a.totalPoints with _ | _ | _
  · simp only [h1]
    exact iff_of_true (by decide) (Or.inl ((cmpBy_eq_lt _ _).mp h1))
  · have he1 : a.totalPoints = b.totalPoints := ((cmpBy_eq_eq _ _).mp h1).symm
    simp only [h1]
    rcases h2 : cmpBy b.wins a.wins with _ | _ | _
    · simp only [h2]
      exact iff_of_true (by decide)
        (Or.inr ⟨he1, Or.inl ((cmpBy_eq_lt _ _).mp h2)⟩)
    · have he2 : a.wins = b.wins := ((cmpBy_eq_eq _ _).mp h2).symm
      simp only [h2]
      rcases h3 : cmpBy b.pointsPerGame a.pointsPerGame with _ | _ | _
      · simp only [h3]
        exact iff_of_true (by decide)
          (Or.inr ⟨he1, Or.inr ⟨he2, Or.inl ((cmpBy_eq_lt _ _).mp h3)⟩⟩)
      · have he3 : a.pointsPerGame = b.pointsPerGame :=
          ((cmpBy_eq_eq _ _).mp h3).symm
        simp only [h3]
        rcases h4 : strCmp a.name b.name with _ | _ | _
        · exact iff_of_true (by decide) (Or.inr ⟨he1, Or.inr ⟨he2,
            Or.inr ⟨he3, le_of_lt ((strCmp_eq_lt _ _).mp h4)⟩⟩⟩)
        · exact iff_of_true (by decide) (Or.inr ⟨he1, Or.inr ⟨he2,
            Or.inr ⟨he3, le_of_eq ((strCmp_eq_eq _ _).mp h4)⟩⟩⟩)
        · have hn : b.name < a.name := (strCmp_eq_gt _ _).mp h4
          refine iff_of_false (by decide) ?_
          rintro (hlt | ⟨_, hw | ⟨_, hp | ⟨_, hle⟩⟩⟩)
          · rw [he1] at hlt
            exact absurd hlt (lt_irrefl _)
          · rw [he2] at hw
            exact absurd hw (lt_irrefl _)
          · rw [he3] at hp
            exact absurd hp (lt_irrefl _)
          · exact absurd hn (not_lt.mpr hle)
      · have hp3 : a.pointsPerGame < b.pointsPerGame := (cmpBy_eq_gt _ _).mp h3
        simp only [h3]
        refine iff_of_false (by decide) ?_
        rintro (hlt | ⟨_, hw | ⟨_, hp | ⟨hpe, _⟩⟩⟩)
        · rw [he1] at hlt
          exact absurd hlt (lt_irrefl _)
        · rw [he2] at hw
          exact absurd hw (lt_irrefl _)
        · exact absurd (lt_trans hp hp3) (lt_irrefl _)
        · rw [hpe] at hp3
          exact absurd hp3 (lt_irrefl _)
    · have hw2 : a.wins < b.wins := (cmpBy_eq_gt _ _).mp h2
      simp only [h2]
      refine iff_of_false (by decide) ?_
      rintro (hlt | ⟨_, hw | ⟨hwe, _⟩⟩)
      · rw [he1] at hlt
        exact absurd hlt (lt_irrefl _)
      · exact absurd (lt_trans hw hw2) (lt_irrefl _)
      · rw [hwe] at hw2
        exact absurd hw2 (lt_irrefl _)
  · have ht1 : a.totalPoints < b.totalPoints := (cmpBy_eq_gt _ _).mp h1
    simp only [h1]
    refine iff_of_false (by decide) ?_
    rintro (hlt | ⟨hte, _⟩)
    · exact absurd (lt_trans hlt ht1) (lt_irrefl _)
    · rw [hte] at ht1
      exact absurd ht1 (lt_irrefl _)

theorem KeyLE_total (a b : PlayerStats) : KeyLE a b ∨ KeyLE b a := by
  unfold KeyLE
  rcases lt_trichotomy a.totalPoints b.totalPoints with h1 | h1 | h1
  · right
    exact Or.inl h1
  · rcases lt_trichotomy a.wins b.wins with h2 | h2 | h2
    · right
      exact Or.inr ⟨h1.symm, Or.inl h2⟩
    · rcases lt_trichotomy a.pointsPerGame b.pointsPerGame with h3 | h3 | h3
      · right
        exact Or.inr ⟨h1.symm, Or.inr ⟨h2.symm, Or.inl h3⟩⟩
      · rcases le_total a.name b.name with h4 | h4
        · left
          exact Or.inr ⟨h1, Or.inr ⟨h2, Or.inr ⟨h3, h4⟩⟩⟩
        · right
          exact Or.inr ⟨h1.symm, Or.inr ⟨h2.symm, Or.inr ⟨h3.symm, h4⟩⟩⟩
      · left
        exact Or.inr ⟨h1, Or.inr ⟨h2, Or.inl h3⟩⟩
    · left
      exact Or.inr ⟨h1, Or.inl h2⟩
  · left
    exact Or.inl h1

theorem KeyLE_trans (a b c : PlayerStats) (hab : KeyLE a b) (hbc : KeyLE b c) :
    KeyLE a c := by
  unfold KeyLE at hab hbc ⊢
  rcases hab with h1 | ⟨e1, hab⟩
  · rcases hbc with g1 | ⟨f1, _⟩
    · exact Or.inl (lt_trans g1 h1)
    · exact Or.inl (f1 ▸ h1)
  · rcases hbc with g1 | ⟨f1, hbc⟩
    · exact Or.inl (lt_of_lt_of_eq g1 e1.symm)
    · refine Or.inr ⟨e1.trans f1, ?_⟩
      rcases hab with h2 | ⟨e2, hab⟩
      · rcases hbc with g2 | ⟨f2, _⟩
        · exact Or.inl (lt_trans g2 h2)
        · exact Or.inl (f2 ▸ h2)
      · rcases hbc with g2 | ⟨f2, hbc⟩
        · exact Or.inl (lt_of_lt_of_eq g2 e2.symm)
        · refine Or.inr ⟨e2.trans f2, ?_⟩
          rcases hab with h3 | ⟨e3, hab⟩
          · rcases hbc with g3 | ⟨f3, _⟩
            · exact Or.inl (lt_trans g3 h3)
            · exact Or.inl (f3 ▸ h3)
          · rcases hbc with g3 | ⟨f3, hbc⟩
            · exact Or.inl (lt_of_lt_of_eq g3 e3.symm)
            · exact Or.inr ⟨e3.trans f3, le_trans hab hbc⟩

instance : IsTotal PlayerStats leRel :=
  ⟨fun a b => by
    unfold leRel
    rw [leStats_iff_KeyLE, leStats_iff_KeyLE]
    exact KeyLE_total a b⟩

instance : IsTrans PlayerStats leRel :=
  ⟨fun a b c hab hbc => by
    unfold leRel at hab hbc ⊢
    rw [leStats_iff_KeyLE] at hab hbc ⊢
    exact KeyLE_trans a b c hab hbc⟩

/-- Forget the rank field (the only field rank assignment writes). -/
def stripRank (s : PlayerStats) : PlayerStats :=
  { s with rank := 0 }

theorem assignRanksAux_map_strip :
    ∀ (l : List PlayerStats) (prev : PlayerStats) (i : Nat),
      (assignRanksAux prev i l).map stripRank = l.map stripRank
  | [], _, _ => rfl
  | p :: rest, prev, i => by
    simp only [assignRanksAux, List.map_cons]
    rw [assignRanksAux_map_strip rest _ (i + 1)]
    rfl

theorem assignRanks_map_strip (l : List PlayerStats) :
    (assignRanks l).map stripRank = l.map stripRank := by
  cases l with
  | nil => rfl
  | cons p rest =>
    simp only [assignRanks, List.map_cons]
    rw [assignRanksAux_map_strip]
    rfl

theorem assignRanksAux_get?_succ :
    ∀ (l : List PlayerStats) (prev : PlayerStats) (i j : Nat)
      (p q : PlayerStats),
      (assignRanksAux prev i l).get? (j + 1) = some p →
      (assignRanksAux prev i l).get? j = some q →
      p.rank = if p.totalPoints = q.totalPoints ∧ p.wins = q.wins then q.rank
        else i + j + 2
  | [], _, _, _, _, _, hp, _ => by cases hp
  | x :: rest, prev, i, 0, p, q, hp, hq => by
    simp only [assignRanksAux, List.get?_cons_succ, List.get?_cons_zero,
      Option.some.injEq] at hp hq
    cases rest with
    | nil => cases hp
    | cons y rest2 =>
      simp only [assignRanksAux, List.get?_cons_zero, Option.some.injEq] at hp
      rw [← hp, ← hq]
  | x :: rest, prev, i, j + 1, p, q, hp, hq => by
    simp only [assignRanksAux, List.get?_cons_succ] at hp hq
    have := assignRanksAux_get?_succ rest _ (i + 1) j p q hp hq
    rw [this]
    by_cases hc : p.totalPoints = q.totalPoints ∧ p.wins = q.wins
    · rw [if_pos hc, if_pos hc]
    · rw [if_neg hc, if_neg hc]
      omega

/-- C4: rankPlayers returns the calculateStats entries (up to the rank field
it writes) sorted by the spec's key order KeyLE -- totalPoints descending,
then wins descending, then pointsPerGame descending, then name ascending --
and assigns ranks competition-style: the first player has rank 1; a player
equal to its predecessor on totalPoints AND wins (regardless of
pointsPerGame) inherits the predecessor's rank; every other player's rank is
its 1-based position, so ranks skip after ties. -/
theorem rankPlayers_spec (t : Tournament) :
    ((rankPlayers t).map stripRank).Perm
      ((calculateStats t).map stripRank) ∧
    (rankPlayers t).Pairwise KeyLE ∧
    (∀ p0, (rankPlayers t).get? 0 = some p0 → p0.rank = 1) ∧
    (∀ i p q, (rankPlayers t).get? (i + 1) = some p →
      (rankPlayers t).get? i = some q →
      p.rank = if p.totalPoints = q.totalPoints ∧ p.wins = q.wins
        then q.rank else i + 2) := by
  unfold rankPlayers
  refine ⟨?_, ?_, ?_, ?_⟩
  · rw [assignRanks_map_strip]
    exact (List.perm_insertionSort leRel (calculateStats t)).map stripRank
  · have hs : ((calculateStats t).insertionSort leRel).Pairwise leRel :=
      List.sorted_insertionSort leRel (calculateStats t)
    have hk : ((calculateStats t).insertionSort leRel).Pairwise KeyLE :=
      hs.imp (fun h => (leStats_iff_KeyLE _ _).mp h)
    have h1 : (((calculateStats t).insertionSort leRel).map
        stripRank).Pairwise KeyLE := by
      rw [List.pairwise_map]
      exact hk
    have h2 : ((assignRanks ((calculateStats t).insertionSort
        leRel)).map stripRank).Pairwise KeyLE := by
      rw [assignRanks_map_strip]
      exact h1
    rw [List.pairwise_map] at h2
    exact h2
  · intro p0 hp0
    rcases hs2 : (calculateStats t).insertionSort leRel with _ | ⟨x, rest⟩
    · rw [hs2] at hp0
      cases hp0
    · rw [hs2] at hp0
      simp only [assignRanks, List.get?_cons_zero, Option.some.injEq] at hp0
      rw [← hp0]
  · intro i p q hp hq
    rcases hs2 : (calculateStats t).insertionSort leRel with _ | ⟨x, rest⟩
    · rw [hs2] at hp
      cases hp
    · rw [hs2] at hp hq
      simp only [assignRanks] at hp hq
      cases i with
      | zero =>
        simp only [List.get?_cons_succ, List.get?_cons_zero,
          Option.some.injEq] at hp hq
        cases rest with
        | nil => cases hp
        | cons y rest2 =>
          simp only [assignRanksAux, List.get?_cons_zero,
            Option.some.injEq] at hp
          rw [← hp, ← hq]
      | succ i2 =>
        simp only [List.get?_cons_succ] at hp hq
        have hr := assignRanksAux_get?_succ rest _ 1 i2 p q hp hq
        rw [hr]
        by_cases hc : p.totalPoints = q.totalPoints ∧ p.wins = q.wins
        · rw [if_pos hc, if_pos hc]
        · rw [if_neg hc, if_neg hc]
          omega

/-- Witness for C4 on the fixture tournament. -/
theorem rankPlayers_spec_witness :
    ((rankPlayers exT).map stripRank).Perm
      ((calculateStats exT).map stripRank) ∧
    (∃ p0, (rankPlayers exT).get? 0 = some p0 ∧ p0.rank = 1) ∧
    (∃ i p q, (rankPlayers exT).get? (i + 1) = some p ∧
      (rankPlayers exT).get? i = some q ∧
      p.rank = if p.totalPoints = q.totalPoints ∧ p.wins = q.wins
        then q.rank else i + 2) := by
  have h := rankPlayers_spec exT
  refine ⟨h.1, ?_, ?_⟩
  · rcases hg : (rankPlayers exT).get? 0 with _ | p0
    · exact absurd hg (by decide)
    · exact ⟨p0, rfl, h.2.2.1 p0 hg⟩
  · rcases hg1 : (rankPlayers exT).get? 1 with _ | p
    · exact absurd hg1 (by decide)
    · rcases hg0 : (rankPlayers exT).get? 0 with _ | q
      · exact absurd hg0 (by decide)
      · exact ⟨0, p, q, hg1, hg0, h.2.2.2 0 p q hg1 hg0⟩
